import Mathlib

/-!
Verification development for the TeraboxDownGUI repository.

The Python sources are shallowly embedded as executable Lean definitions:
strings become `List Char` / `String`, dictionaries become structures,
the worker-thread loop becomes a step relation, and the streaming download
loop becomes a recursive function over an explicit trace of chunk events.
Python `while True` loops are modelled with an explicit fuel argument and
an `Option` result (`none` = fuel exhausted, which the real loop never
reaches for a finite filesystem).
-/

namespace Terabox

/-! ## Generic character/list helpers (Python string primitives) -/

/-- Characters Python `str.strip()` removes (ASCII/Latin-1 whitespace; exotic
Unicode space categories are not modelled, no claim depends on them). -/
def pyIsSpace (c : Char) : Bool :=
  c = ' ' || c = '\t' || c = '\n' || c = '\x0d' || c = '\x0b' || c = '\x0c' ||
  c = '\x1c' || c = '\x1d' || c = '\x1e' || c = '\x1f' || c = '\x85' || c = '\xa0'

/-- Python `s.lstrip()` on a character list. -/
def lstripWs (l : List Char) : List Char := l.dropWhile pyIsSpace

/-- Python `s.rstrip(chars)` generalised to a Boolean predicate. -/
def rstripBy (p : Char → Bool) (l : List Char) : List Char :=
  (l.reverse.dropWhile p).reverse

/-- Python `s.strip()` on a character list. -/
def stripWs (l : List Char) : List Char := rstripBy pyIsSpace (lstripWs l)

/-- Python `s.lower()` (ASCII case folding, as used by the validators). -/
def lowerL (l : List Char) : List Char := l.map Char.toLower

/-- Python `s.upper()` (ASCII case folding, as used by the validators). -/
def upperL (l : List Char) : List Char := l.map Char.toUpper

/-- Split at the first occurrence of `t`: returns the part before it and,
when `t` occurs, the part after it (Python `s.split(t, 1)` shape). -/
def breakAt (t : Char) : List Char → List Char × Option (List Char)
  | [] => ([], none)
  | c :: rest =>
    if c = t then ([], some rest)
    else
      let r := breakAt t rest
      (c :: r.1, r.2)

/-- Python `sep in s` substring test. -/
def hasSubstr (sep : List Char) : List Char → Bool
  | [] => sep.isEmpty
  | c :: rest => sep.isPrefixOf (c :: rest) || hasSubstr sep rest

/-- Python `s.rfind(c)` as an optional index. -/
def lastIdxOf (c : Char) (l : List Char) : Option Nat :=
  (l.reverse.findIdx? (· = c)).map (fun i => l.length - 1 - i)

/-! ## `os.path.splitext` (posixpath), used by both validators and the
download manager's collision handling. -/

/-- Model of `os.path.splitext`: split at the last dot of the last path
segment, unless every character before that dot in the segment is itself a
dot (so `.bashrc` keeps its name). -/
def splitext (l : List Char) : List Char × List Char :=
  match lastIdxOf '.' l with
  | none => (l, [])
  | some d =>
    let s : Nat := match lastIdxOf '/' l with | none => 0 | some i => i + 1
    if s ≤ d ∧ ((l.drop s).take (d - s)).any (fun c => !(c = '.')) then
      (l.take d, l.drop d)
    else (l, [])

/-! ## `src/utils/validators.py` — `FileValidator` -/

/-- `FileValidator.forbidden_chars`. -/
def forbiddenChars : List Char := ['<', '>', ':', '\"', '|', '?', '*']

/-- `FileValidator.reserved_names`. -/
def reservedNames : List (List Char) :=
  ["CON".data, "PRN".data, "AUX".data, "NUL".data,
   "COM1".data, "COM2".data, "COM3".data, "COM4".data, "COM5".data,
   "COM6".data, "COM7".data, "COM8".data, "COM9".data,
   "LPT1".data, "LPT2".data, "LPT3".data, "LPT4".data, "LPT5".data,
   "LPT6".data, "LPT7".data, "LPT8".data, "LPT9".data]

/-- `FileValidator.is_valid_filename` (the Boolean verdict; the accompanying
human-readable reason string is not modelled). -/
def is_valid_filename (s : String) : Bool :=
  if (stripWs s.data).isEmpty then false
  else
    let f := stripWs s.data
    if 255 < f.length then false
    else if f.any (fun c => forbiddenChars.contains c) then false
    else if f.any (fun c => c.toNat < 32) then false
    else if reservedNames.contains (upperL (splitext f).1) then false
    else if f.getLast? = some '.' ∨ f.getLast? = some ' ' then false
    else true

/-- Python slice `l[:m]` for a possibly negative bound `m`. -/
def pySlice (l : List Char) (m : Int) : List Char :=
  if m < 0 then l.take ((l.length : Int) + m).toNat else l.take m.toNat

/-- Stage 1 of `sanitize_filename`: replace forbidden characters by `'_'`,
drop control characters, and strip trailing dots and spaces
(`filename.rstrip('. ')`). -/
def sanitizeCore (l : List Char) : List Char :=
  rstripBy (fun c => c = '.' || c = ' ')
    ((l.map (fun c => if forbiddenChars.contains c then '_' else c)).filter
      (fun c => 32 ≤ c.toNat))

/-- Stage 2 of `sanitize_filename`: the reserved-name rewrite
`f"{name_part}_file{ext}"`. -/
def sanitizeReserved (l : List Char) : List Char :=
  if reservedNames.contains (upperL (splitext l).1) then
    (splitext l).1 ++ "_file".data ++ (splitext l).2
  else l

/-- Stage 3 of `sanitize_filename`: truncate an over-long name, keeping the
extension (`name_part[:max_name_length] + ext`, Python slice semantics). -/
def sanitizeTrunc (l : List Char) : List Char :=
  if 255 < l.length then
    pySlice (splitext l).1 ((255 : Int) - (splitext l).2.length) ++ (splitext l).2
  else l

/-- `FileValidator.sanitize_filename`. -/
def sanitize_filename (s : String) : String :=
  if s.data.isEmpty then "untitled"
  else
    let s5 := sanitizeTrunc (sanitizeReserved (sanitizeCore s.data))
    if (stripWs s5).isEmpty then "untitled" else String.mk s5

/-! ## `src/core/download_manager.py` — `DownloadManager._get_unique_filepath`

The filesystem is modelled as the list of path names that exist; the
unbounded `while True` loop carries explicit fuel. -/

/-- `os.path.splitext` lifted to `String`. -/
def splitextStr (s : String) : String × String :=
  let p := splitext s.data
  (String.mk p.1, String.mk p.2)

/-- The candidate name the loop builds for counter `n`:
`f"{base} ({counter}){ext}"` with `base, ext = os.path.splitext(filepath)`. -/
def mkNumbered (filepath : String) (n : Nat) : String :=
  let p := splitextStr filepath
  p.1 ++ " (" ++ toString n ++ ")" ++ p.2

/-- The `while True` loop of `_get_unique_filepath` (fuel-bounded; `none`
means the fuel ran out, which cannot happen once the fuel exceeds the least
free counter). -/
def uniqueLoop (fs : List String) (base ext : String) : Nat → Nat → Option String
  | 0, _ => none
  | fuel + 1, counter =>
    let cand := base ++ " (" ++ toString counter ++ ")" ++ ext
    if fs.contains cand then uniqueLoop fs base ext fuel (counter + 1)
    else some cand

/-- `DownloadManager._get_unique_filepath` over the filesystem `fs`. -/
def get_unique_filepath (fuel : Nat) (fs : List String) (filepath : String) :
    Option String :=
  if fs.contains filepath then
    let p := splitextStr filepath
    uniqueLoop fs p.1 p.2 fuel 1
  else some filepath

/-! ## `src/core/download_manager.py` — `DownloadManager._download_file`

The HTTP response is a trace of chunk events: each iteration of
`response.iter_content(...)` either yields a chunk of a given size, raises a
`requests.exceptions.RequestException` (connection dropped mid-stream), or
raises some other exception (e.g. an `OSError` from the chunk write).
Wall-clock time is an oracle `elapsed : Nat → ℚ` giving
`time.time() - start_time` as observed at the i-th loop iteration, and the
externally settable `cancelled` flag is an oracle `cancel : Nat → Bool`
giving its value as observed at the i-th iteration.  The pool-level pause
wait only spins in time and is not modelled; opening the destination file is
assumed to succeed (write failures appear as `otherErr` events). -/

inductive ChunkEvent where
  | chunk (size : Nat)
  | netErr
  | otherErr
deriving DecidableEq

inductive DlResult where
  | completed
  | cancelled
  | netErr
  | otherErr
deriving DecidableEq

/-- One progress dict passed to `_update_progress` from the chunk loop.  The
Python dict always carries the keys `progress`, `downloaded_bytes`,
`total_bytes`, `speed` and `eta`; we record the numeric payloads (the
formatted `speed`/`size_info` strings are derived data and not modelled). -/
structure ProgressEvent where
  downloaded : Nat
  total : Nat
  percent : ℚ
  eta : ℚ
deriving DecidableEq

/-- The progress emission performed after a chunk is written, when
`downloaded % (8192*10) == 0 or downloaded == total_size` and the observed
elapsed time is positive (`if elapsed > 0`). -/
def chunkTick (total : Nat) (elapsedI : ℚ) (d : Nat) : List ProgressEvent :=
  if (d % (8192 * 10) = 0 ∨ d = total) ∧ 0 < elapsedI then
    let speed : ℚ := (d : ℚ) / elapsedI
    let eta : ℚ := if 0 < speed then ((total : ℚ) - (d : ℚ)) / speed else 0
    let pct : ℚ := if 0 < total then (d : ℚ) / (total : ℚ) * 100 else 0
    [⟨d, total, pct, eta⟩]
  else []

structure LoopOut where
  result : DlResult
  downloaded : Nat
  events : List ProgressEvent
deriving DecidableEq

/-- The `for chunk in response.iter_content(chunk_size=8192)` loop: pull the
next event, check the `cancelled` flag, skip empty chunks, otherwise write
the chunk and maybe emit progress. -/
def dlLoop (total : Nat) (elapsed : Nat → ℚ) (cancel : Nat → Bool) :
    List ChunkEvent → Nat → Nat → LoopOut
  | [], _, d => ⟨.completed, d, []⟩
  | .netErr :: _, _, d => ⟨.netErr, d, []⟩
  | .otherErr :: _, _, d => ⟨.otherErr, d, []⟩
  | .chunk sz :: rest, i, d =>
    if cancel i then ⟨.cancelled, d, []⟩
    else if sz = 0 then dlLoop total elapsed cancel rest (i + 1) d
    else
      let d2 := d + sz
      let out := dlLoop total elapsed cancel rest (i + 1) d2
      ⟨out.result, out.downloaded, chunkTick total (elapsed i) d2 ++ out.events⟩

/-- Final state of one `_download_file` call: the exception outcome, whether
the destination file still exists afterwards and with how many bytes, the
chunk-loop progress events, and the history records written.  Mirrors the
`except` structure of the source: a `RequestException` is turned into
`Exception(f"Network error: ...")` inside the first handler, so the sibling
cleanup handler never runs for it and the partial file is NOT deleted; the
generic handler deletes the partial file and re-raises. -/
structure DlState where
  result : DlResult
  fileExists : Bool
  fileBytes : Nat
  events : List ProgressEvent
  history : List String
deriving DecidableEq

/-- The tail of `_download_file` after the chunk loop ends (normally or by
exception): completion writes the history record; a `RequestException` is
re-raised as `Exception("Network error: ...")` from inside its own handler,
so the sibling cleanup handler does not run and the partial file survives;
the generic handler deletes the partial file before re-raising. -/
def finishDl (hasHist : Bool) (out : LoopOut) : DlState :=
  match out.result with
  | .completed =>
    ⟨.completed, true, out.downloaded, out.events,
      if hasHist then ["Completed"] else []⟩
  | .netErr => ⟨.netErr, true, out.downloaded, out.events, []⟩
  | .cancelled => ⟨.cancelled, false, 0, out.events, []⟩
  | .otherErr => ⟨.otherErr, false, 0, out.events, []⟩

/-- `DownloadManager._download_file`.  `resp = none` models the initial GET
failing (`raise_for_status` / connection error) before the file is opened;
`resp = some (total, trace)` models a streaming response whose
`content-length` header is `total` (0 when absent). `hasHist` models
`hasattr(self, 'history_callback')`. -/
def downloadFile (resp : Option (Nat × List ChunkEvent)) (elapsed : Nat → ℚ)
    (cancel : Nat → Bool) (hasHist : Bool) : DlState :=
  match resp with
  | none => ⟨.netErr, false, 0, [], []⟩
  | some (total, evs) => finishDl hasHist (dlLoop total elapsed cancel evs 0 0)

/-- The exception message observed by `_process_download` for each
non-success outcome of `_download_file`. -/
def errMsg (r : DlResult) : String :=
  match r with
  | .completed => ""
  | .cancelled => "Download cancelled"
  | .netErr => "Network error"
  | .otherErr => "Write error"

/-! ## `DownloadManager._process_download` -/

/-- The per-item oracle: the pre-resolved `file_info.download_url` if the
caller supplied one, what `api.get_file_info` would return (`none` =
resolution failure), and the download behaviour. -/
structure ItemSpec where
  presetUrl : Option String
  resolved : Option String
  resp : Option (Nat × List ChunkEvent)
  elapsed : Nat → ℚ
  cancel : Nat → Bool

/-- The `download_url` `_process_download` ends up with, or `none` when it
raises `Exception("Failed to get download link")`. -/
def effectiveUrl (it : ItemSpec) : Option String :=
  match it.presetUrl with
  | some u => some u
  | none => it.resolved

/-- Terminal observation of one `_process_download` call: the status string
reported via `_update_progress` (`'Completed'` or `'Failed'` — the source has
no distinct `Cancelled` terminal status), the error message, whether a
partial file remains, and the history records written. -/
structure ProcOut where
  status : String
  error : String
  fileExists : Bool
  history : List String
deriving DecidableEq

/-- How `_process_download` reports the outcome of `_download_file`: the
`except` branch turns every exception into status `'Failed'` with the
exception text and appends to `failed_downloads`. -/
def classifyDl (d : DlState) : ProcOut :=
  match d.result with
  | .completed => ⟨"Completed", "", d.fileExists, d.history⟩
  | r => ⟨"Failed", errMsg r, d.fileExists, d.history⟩

/-- `DownloadManager._process_download` for one item. -/
def processDownload (hasHist : Bool) (it : ItemSpec) : ProcOut :=
  match effectiveUrl it with
  | none => ⟨"Failed", "Failed to get download link", false, []⟩
  | some _ => classifyDl (downloadFile it.resp it.elapsed it.cancel hasHist)

/-- A whole run: each queued item is fully processed by some worker
(`_download_worker` dequeues and calls `_process_download`); returns the
terminal status of each item in submission order and the concatenated
history-sink records. -/
def runItems (hasHist : Bool) (its : List ItemSpec) : List String × List String :=
  (its.map (fun it => (processDownload hasHist it).status),
   (its.map (fun it => (processDownload hasHist it).history)).flatten)

/-! ## `DownloadManager.remove_download` and the worker-pool state -/

/-- Manager collections relevant to `remove_download`: the queue of not yet
claimed items and the `active_downloads` map (id paired with its
`cancelled` flag). -/
structure MgrState where
  queued : List Nat
  active : List (Nat × Bool)
deriving DecidableEq

/-- `DownloadManager.remove_download(item_id)`: if the id is an active
download, its `cancelled` flag is set and the entry is deleted from
`active_downloads`; the download queue itself is never touched. -/
def remove_download (s : MgrState) (id : Nat) : MgrState :=
  if (s.active.map Prod.fst).contains id then
    ⟨s.queued, s.active.filter (fun p => !(p.1 == id))⟩
  else s

/-- Pool-level state for the conservation argument: ids still queued, ids
claimed by a worker (`active_downloads`), and the lengths of
`completed_downloads` / `failed_downloads`. -/
structure PoolState where
  queued : List Nat
  active : List Nat
  completedN : Nat
  failedN : Nat
deriving DecidableEq

/-- Atomic transitions of the worker pool, mirroring the source paths:
`claim` is `download_queue.get()` followed by the `active_downloads`
insertion (lines 104/123); `finishOk` / `finishFail` are the
`completed_downloads` / `failed_downloads` appends together with the
`finally` removal from `active_downloads` (lines 151/156/239).  Every
exception path of `_process_download` appends to `failed_downloads`, so a
claimed item always finishes one way or the other. -/
inductive PoolStep : PoolState → PoolState → Prop
  | claim (id : Nat) (rest a : List Nat) (c f : Nat) :
      PoolStep ⟨id :: rest, a, c, f⟩ ⟨rest, id :: a, c, f⟩
  | finishOk (id : Nat) (q a : List Nat) (c f : Nat) (h : id ∈ a) :
      PoolStep ⟨q, a, c, f⟩ ⟨q, a.erase id, c + 1, f⟩
  | finishFail (id : Nat) (q a : List Nat) (c f : Nat) (h : id ∈ a) :
      PoolStep ⟨q, a, c, f⟩ ⟨q, a.erase id, c, f + 1⟩

/-- Total number of items the pool is accounting for. -/
def PoolState.itemCount (s : PoolState) : Nat :=
  s.queued.length + s.active.length + s.completedN + s.failedN

/-! ## `urllib.parse.urlparse`, as used by `src/utils/validators.py`

This models the classic `urlsplit`/`urlparse` algorithm: optional scheme
before the first `':'`, `//netloc` up to the next `/`, `?` or `#`, fragment
split at the first `#`, query at the first `?`, and `;params` split off the
last path segment.  Not modelled: the IPv6 bracket `ValueError` (the netlocs
relevant here contain no brackets) and the tab/newline byte removal added to
CPython later as a security fix. -/

/-- Characters allowed in a URL scheme (`scheme_chars`). -/
def schemeChar (c : Char) : Bool :=
  c.isAlpha || c.isDigit || c = '+' || c = '-' || c = '.'

structure UrlParts where
  scheme : List Char
  netloc : List Char
  path : List Char
  params : List Char
  query : List Char
  fragment : List Char
deriving DecidableEq

/-- A character that ends the netloc segment (`'/'`, `'?'` or `'#'`). -/
def notNetlocEnd (c : Char) : Bool := !(c = '/' || c = '?' || c = '#')

/-- `urllib.parse._splitparams`: split `;params` off the last path segment. -/
def splitParams (l : List Char) : List Char × List Char :=
  if l.contains '/' then
    match breakAt ';' ((l.reverse.takeWhile (fun c => !(c = '/'))).reverse) with
    | (_, none) => (l, [])
    | (a, some b) =>
      (l.take (l.length - ((l.reverse.takeWhile (fun c => !(c = '/'))).reverse).length) ++ a, b)
  else
    match breakAt ';' l with
    | (_, none) => (l, [])
    | (a, some b) => (a, b)

/-- Scheme detection of `urlsplit`: the part before the first `':'` is the
(lowercased) scheme when it is non-empty, starts with a letter and consists
of scheme characters. -/
def parseScheme (l : List Char) : List Char × List Char :=
  let sp := breakAt ':' l
  match sp.2 with
  | some after =>
    if !sp.1.isEmpty && (sp.1.head?.elim false Char.isAlpha) && sp.1.all schemeChar
    then (lowerL sp.1, after)
    else ([], l)
  | none => ([], l)

/-- Netloc detection of `urlsplit`: after a leading `//`, the netloc runs to
the next `/`, `?` or `#`. -/
def parseNetloc (l : List Char) : List Char × List Char :=
  match l with
  | '/' :: '/' :: r => (r.takeWhile notNetlocEnd, r.dropWhile notNetlocEnd)
  | other => ([], other)

/-- `urllib.parse.urlparse` on a character list. -/
def urlparseL (l : List Char) : UrlParts :=
  let sr := parseScheme l
  let nr := parseNetloc sr.2
  let fr := breakAt '#' nr.2
  let qu := breakAt '?' fr.1
  let pp := splitParams qu.1
  ⟨sr.1, nr.1, pp.1, pp.2, qu.2.getD [], fr.2.getD []⟩

/-- `urllib.parse.urlparse` on a `String`. -/
def urlparse (s : String) : UrlParts := urlparseL s.data

/-! ## `src/utils/validators.py` — `URLValidator` -/

/-- `URLValidator.is_valid_url`: truthy scheme and netloc. -/
def is_valid_url (url : String) : Bool :=
  let p := urlparse url
  !p.scheme.isEmpty && !p.netloc.isEmpty

/-- `URLValidator.terabox_domains`. -/
def terabox_domains : List (List Char) :=
  ["terabox.com".data, "www.terabox.com".data,
   "1024terabox.com".data, "www.1024terabox.com".data,
   "teraboxapp.com".data, "www.teraboxapp.com".data,
   "nephobox.com".data, "www.nephobox.com".data,
   "dubox.com".data, "www.dubox.com".data,
   "4funbox.com".data, "www.4funbox.com".data]

/-- The `any(domain in parsed.netloc ...)` check. -/
def domainOkB (netloc : List Char) : Bool :=
  terabox_domains.any (fun d => hasSubstr d netloc)

/-- A character matched by the regex class `[\w-]` (`\w` is modelled as
ASCII alphanumeric or underscore; the share ids in question are ASCII). -/
def wordDash (c : Char) : Bool := c.isAlphanum || c = '_' || c = '-'

/-- Drop a literal pattern piece from the front of the input, if present. -/
def stripPre (pre l : List Char) : Option (List Char) :=
  if pre.isPrefixOf l then some (l.drop pre.length) else none

/-- Match `(?:www\.)?DOMAIN TAIL [\w-]` after the scheme part: the regexes
only need one `[\w-]` character to succeed since `re.match` is a prefix
match. -/
def matchAfterScheme (dom tail l : List Char) : Bool :=
  let tryDom : List Char → Bool := fun r =>
    match stripPre dom r with
    | some r2 =>
      (match stripPre tail r2 with
       | some r3 => r3.head?.elim false wordDash
       | none => false)
    | none => false
  (match stripPre "www.".data l with
   | some r => tryDom r
   | none => false) || tryDom l

/-- Prefix-match one `terabox_patterns` regex
`https?://(?:www\.)?DOMAIN TAIL [\w-]+` against a lowercased URL
(`re.IGNORECASE` is modelled by lowercasing both sides). -/
def matchPat (dom tail l : List Char) : Bool :=
  match stripPre "http".data l with
  | some r =>
    (match stripPre "s://".data r with
     | some r2 => matchAfterScheme dom tail r2
     | none => false) ||
    (match stripPre "://".data r with
     | some r2 => matchAfterScheme dom tail r2
     | none => false)
  | none => false

/-- The `terabox_patterns` loop of `is_valid_terabox_url`. -/
def teraboxPatternsMatch (url : String) : Bool :=
  let l := lowerL url.data
  matchPat "terabox.com".data "/s/".data l ||
  matchPat "terabox.com".data "/sharing/link?surl=".data l ||
  matchPat "1024terabox.com".data "/s/".data l ||
  matchPat "teraboxapp.com".data "/s/".data l ||
  matchPat "nephobox.com".data "/s/".data l ||
  matchPat "dubox.com".data "/s/".data l ||
  matchPat "4funbox.com".data "/s/".data l

/-- `URLValidator.is_valid_terabox_url`. -/
def is_valid_terabox_url (url : String) : Bool :=
  is_valid_url url &&
    (let p := urlparseL (lowerL url.data)
     domainOkB p.netloc &&
       (teraboxPatternsMatch url ||
        hasSubstr "/s/".data p.path ||
        hasSubstr "surl=".data p.query))

/-! ## `URLValidator.extract_terabox_id` -/

/-- Prepend a character to the first piece of a split result. -/
def consSplit (c : Char) (ls : List (List Char)) : List (List Char) :=
  match ls with
  | [] => [[c]]
  | h :: t => (c :: h) :: t

/-- Python `path.split('/s/')` (split on the literal three-character
separator, leftmost non-overlapping occurrences). -/
def splitOnS : List Char → List (List Char)
  | [] => [[]]
  | c :: rest =>
    if c = '/' then
      match rest with
      | 's' :: '/' :: r2 => [] :: splitOnS r2
      | other => consSplit c (splitOnS other)
    else consSplit c (splitOnS rest)

/-- Python `s.split(t)` on a single-character separator. -/
def splitOnChar (t : Char) : List Char → List (List Char)
  | [] => [[]]
  | c :: rest =>
    if c = t then [] :: splitOnChar t rest
    else
      match splitOnChar t rest with
      | [] => [[c]]
      | h :: tl => (c :: h) :: tl

/-- Hexadecimal digit value, if any. -/
def hexVal (c : Char) : Option Nat :=
  if '0' ≤ c ∧ c ≤ '9' then some (c.toNat - '0'.toNat)
  else if 'a' ≤ c ∧ c ≤ 'f' then some (c.toNat - 'a'.toNat + 10)
  else if 'A' ≤ c ∧ c ≤ 'F' then some (c.toNat - 'A'.toNat + 10)
  else none

/-- Percent-decoding of `urllib.parse.unquote` (single-byte model: each
valid `%XX` becomes the character with code `XX`; multi-byte UTF-8
sequences are out of scope, the ids in question are ASCII). -/
def percentDecode : List Char → List Char
  | '%' :: a :: b :: rest =>
    match hexVal a, hexVal b with
    | some x, some y => Char.ofNat (16 * x + y) :: percentDecode rest
    | _, _ => '%' :: percentDecode (a :: b :: rest)
  | c :: rest => c :: percentDecode rest
  | [] => []

/-- `urllib.parse.unquote_plus`: `+` becomes a space, then percent-decode. -/
def unquotePlus (l : List Char) : List Char :=
  percentDecode (l.map (fun c => if c = '+' then ' ' else c))

/-- First `surl` value of `urllib.parse.parse_qs(query)`: pairs split on
`'&'`, empty pairs and pairs without `'='` or with an empty raw value are
skipped (`keep_blank_values=False`), names and values are unquoted. -/
def parseQsFirstSurl : List (List Char) → Option (List Char)
  | [] => none
  | pair :: rest =>
    match breakAt '=' pair with
    | (n, some v) =>
      if !v.isEmpty && unquotePlus n == "surl".data then some (unquotePlus v)
      else parseQsFirstSurl rest
    | (_, none) => parseQsFirstSurl rest

/-- `URLValidator.extract_terabox_id`. -/
def extract_terabox_id (url : String) : Option String :=
  let p := urlparseL url.data
  if hasSubstr "/s/".data p.path then
    some (String.mk (((splitOnS p.path).getLastD []).takeWhile (fun c => !(c = '/'))))
  else
    match parseQsFirstSurl (splitOnChar '&' p.query) with
    | some v => some (String.mk v)
    | none => none

/-- `URLValidator.normalize_terabox_url`. -/
def normalize_terabox_url (url : String) : Option String :=
  if is_valid_terabox_url url then
    match extract_terabox_id url with
    | some id => if id.isEmpty then some url else some ("https://terabox.com/s/" ++ id)
    | none => some url
  else none

/-! ## Auxiliary definitions used by the theorems below -/

/-- A character `sanitize_filename` is allowed to emit: not forbidden and
not a control character. -/
def okC (c : Char) : Prop := c ∉ forbiddenChars ∧ 32 ≤ c.toNat

/-- The three-item scenario of claim C4: items A and C download normally,
item B has no pre-resolved info and the resolver fails. -/
def c4Items : List ItemSpec :=
  [⟨some "urlA", none, some (16384, [.chunk 8192, .chunk 8192]), fun _ => 1, fun _ => false⟩,
   ⟨none, none, none, fun _ => 1, fun _ => false⟩,
   ⟨some "urlC", none, some (8192, [.chunk 8192]), fun _ => 1, fun _ => false⟩]

/-! # Theorems

First the shared helper lemmas, then one theorem per claim
(with witnesses and counterexamples where required). -/

/-! ## Shared list lemmas -/

lemma isPrefixOf_append_self (a b : List Char) : a.isPrefixOf (a ++ b) = true := by
  induction a with
  | nil => simp [List.isPrefixOf]
  | cons c t ih => simp [List.isPrefixOf, ih]

lemma hasSubstr_append_self (sep b : List Char) (h : sep ≠ []) :
    hasSubstr sep (sep ++ b) = true := by
  cases sep with
  | nil => exact absurd rfl h
  | cons c s => simp [hasSubstr, isPrefixOf_append_self (c :: s) b]

lemma breakAt_cons_self (t : Char) (b : List Char) : breakAt t (t :: b) = ([], some b) := by
  simp [breakAt]

lemma breakAt_append (t : Char) (a b : List Char) (h : ∀ c ∈ a, c ≠ t) :
    breakAt t (a ++ b) = (a ++ (breakAt t b).1, (breakAt t b).2) := by
  induction a with
  | nil => simp
  | cons c rest ih =>
    have hc : c ≠ t := h c (List.mem_cons_self c rest)
    simp [breakAt, hc, ih (fun x hx => h x (List.mem_cons_of_mem c hx))]

lemma breakAt_not_mem (t : Char) (l : List Char) (h : ∀ c ∈ l, c ≠ t) :
    breakAt t l = (l, none) := by
  induction l with
  | nil => rfl
  | cons c rest ih =>
    have hc : c ≠ t := h c (List.mem_cons_self c rest)
    simp [breakAt, hc, ih (fun x hx => h x (List.mem_cons_of_mem c hx))]

lemma takeWhile_append_all (p : Char → Bool) (a b : List Char)
    (h : ∀ c ∈ a, p c = true) : (a ++ b).takeWhile p = a ++ b.takeWhile p := by
  induction a with
  | nil => simp
  | cons c t ih =>
    simp [List.takeWhile, h c (by simp), ih (fun x hx => h x (by simp [hx]))]

lemma dropWhile_append_all (p : Char → Bool) (a b : List Char)
    (h : ∀ c ∈ a, p c = true) : (a ++ b).dropWhile p = b.dropWhile p := by
  induction a with
  | nil => simp
  | cons c t ih =>
    simp [List.dropWhile, h c (by simp), ih (fun x hx => h x (by simp [hx]))]

lemma takeWhile_append_length (p : Char → Bool) (a b : List Char) (c : Char)
    (hc : p c = false) : ((a ++ c :: b).takeWhile p).length ≤ a.length := by
  induction a with
  | nil => simp [List.takeWhile, hc]
  | cons x t ih =>
    by_cases hx : p x
    · simpa [List.takeWhile, hx] using ih
    · simp [List.takeWhile, hx]

/-! ## C8 — conservation of items in the worker pool -/

lemma poolStep_itemCount {s t : PoolState} (h : PoolStep s t) :
    t.itemCount = s.itemCount := by
  cases h with
  | claim id rest a c f => simp [PoolState.itemCount]; omega
  | finishOk id q a c f hmem =>
    have h1 : (a.erase id).length = a.length - 1 := List.length_erase_of_mem hmem
    have h2 : 0 < a.length := List.length_pos_of_mem hmem
    simp only [PoolState.itemCount, h1]
    omega
  | finishFail id q a c f hmem =>
    have h1 : (a.erase id).length = a.length - 1 := List.length_erase_of_mem hmem
    have h2 : 0 < a.length := List.length_pos_of_mem hmem
    simp only [PoolState.itemCount, h1]
    omega

/-- C8: starting from `N` enqueued items, every reachable pool state
accounts for exactly `N` items across queued, active, completed and failed
(no item is silently dropped), and in any quiescent reachable state the
completed and failed counts sum to `N`. -/
theorem c8_item_conservation (ids : List Nat) (t : PoolState)
    (h : Relation.ReflTransGen PoolStep ⟨ids, [], 0, 0⟩ t) :
    t.itemCount = ids.length ∧
      (t.queued = [] → t.active = [] →
        t.completedN + t.failedN = ids.length) := by
  have hc : t.itemCount = ids.length := by
    induction h with
    | refl => simp [PoolState.itemCount]
    | tail hab hbc ih => rw [poolStep_itemCount hbc]; exact ih
  refine ⟨hc, fun hq ha => ?_⟩
  have h2 := hc
  unfold PoolState.itemCount at h2
  rw [hq, ha] at h2
  simpa using h2

/-- Witness for C8: a concrete two-item run (one success, one failure)
reaching quiescence with `completed + failed = 2`. -/
theorem c8_item_conservation_witness :
    (⟨[], [], 1, 1⟩ : PoolState).itemCount = ([5, 9] : List Nat).length ∧
      ((⟨[], [], 1, 1⟩ : PoolState).queued = [] →
        (⟨[], [], 1, 1⟩ : PoolState).active = [] →
        (⟨[], [], 1, 1⟩ : PoolState).completedN + (⟨[], [], 1, 1⟩ : PoolState).failedN =
          ([5, 9] : List Nat).length) :=
  c8_item_conservation [5, 9] ⟨[], [], 1, 1⟩
    (Relation.ReflTransGen.tail
      (Relation.ReflTransGen.tail
        (Relation.ReflTransGen.tail
          (Relation.ReflTransGen.tail Relation.ReflTransGen.refl
            (PoolStep.claim 5 [9] [] 0 0))
          (PoolStep.finishOk 5 [9] [5] 0 0 (by simp)))
        (PoolStep.claim 9 [] [] 1 0))
      (PoolStep.finishFail 9 [] [9] 1 0 (by simp)))

/-! ## C2 — `remove_download` on a queued-but-unclaimed item -/

/-- C2 (code bug): with item `7` enqueued and no active downloads,
`remove_download(7)` leaves the manager state — in particular the queue —
completely unchanged, and a worker can still claim the item afterwards.
The claim (and the function's own docstring, "Remove a download from
queue or cancel if active") say the queued item is removed and never
processed. -/
theorem c2_remove_download_noop :
    remove_download ⟨[7], []⟩ 7 = ⟨[7], []⟩ ∧
      (remove_download ⟨[7], []⟩ 7).queued = [7] ∧
      PoolStep ⟨(remove_download ⟨[7], []⟩ 7).queued, [], 0, 0⟩ ⟨[], [7], 0, 0⟩ :=
  ⟨by decide, by decide, PoolStep.claim 7 [] [] 0 0⟩

/-! ## C1 — partial file left behind after a mid-stream network error -/

/-- C1 (code bug): a stream that delivers one 8192-byte chunk and then
raises a `RequestException` leaves the download with outcome `netErr` and
the 8192-byte partial file still on disk — the `except RequestException`
handler re-raises `Exception("Network error: ...")` from within itself, so
the sibling cleanup handler (which would delete the partial file) never
runs.  `_process_download` then reports status `'Failed'`. -/
theorem c1_partial_file_survives :
    (downloadFile (some (100000, [.chunk 8192, .netErr])) (fun _ => 1)
        (fun _ => false) true).result = .netErr ∧
      (downloadFile (some (100000, [.chunk 8192, .netErr])) (fun _ => 1)
        (fun _ => false) true).fileExists = true ∧
      (downloadFile (some (100000, [.chunk 8192, .netErr])) (fun _ => 1)
        (fun _ => false) true).fileBytes = 8192 ∧
      (processDownload true ⟨some "u", none, some (100000, [.chunk 8192, .netErr]),
        fun _ => 1, fun _ => false⟩).status = "Failed" :=
  ⟨by decide, by decide, by decide, by decide⟩

/-! ## Chunk-loop lemmas shared by C3, C5 and C7 -/

lemma dlLoop_cancel_run (total : Nat) (elapsed : Nat → ℚ) (K : Nat) (sizes : List Nat) :
    ∀ (k i d : Nat), i + k = K → k < sizes.length →
      dlLoop total elapsed (fun j => decide (K ≤ j)) (sizes.map ChunkEvent.chunk) i d =
        dlLoop total elapsed (fun j => decide (K ≤ j)) ((sizes.take (k + 1)).map ChunkEvent.chunk) i d ∧
      (dlLoop total elapsed (fun j => decide (K ≤ j)) (sizes.map ChunkEvent.chunk) i d).result = .cancelled ∧
      (dlLoop total elapsed (fun j => decide (K ≤ j)) (sizes.map ChunkEvent.chunk) i d).downloaded =
        d + (sizes.take k).sum := by
  induction sizes with
  | nil => intro k i d hK hlt; simp at hlt
  | cons sz rest ih =>
    intro k i d hK hlt
    match k with
    | 0 =>
      have hci : K ≤ i := by omega
      simp [dlLoop, hci]
    | Nat.succ k' =>
      have hci : ¬ K ≤ i := by omega
      have hlt2 : k' < rest.length := by simpa using hlt
      by_cases hsz : sz = 0
      · subst hsz
        obtain ⟨ih1, ih2, ih3⟩ := ih k' (i + 1) d (by omega) hlt2
        refine ⟨?_, ?_, ?_⟩
        · simpa [dlLoop, hci] using ih1
        · simpa [dlLoop, hci] using ih2
        · simpa [dlLoop, hci] using ih3
      · obtain ⟨ih1, ih2, ih3⟩ := ih k' (i + 1) (d + sz) (by omega) hlt2
        refine ⟨?_, ?_, ?_⟩
        · simp only [List.map_cons, List.take_succ_cons, dlLoop, hci, decide_eq_true_eq,
            if_false, hsz, ite_false]
          rw [ih1]
        · simp only [List.map_cons, dlLoop, hci, decide_eq_true_eq, if_false, hsz, ite_false]
          exact ih2
        · simp only [List.map_cons, List.take_succ_cons, dlLoop, hci, decide_eq_true_eq,
            if_false, hsz, ite_false]
          rw [List.sum_cons, ih3]
          omega

lemma finishDl_cancelled (hh : Bool) (out : LoopOut) (h : out.result = .cancelled) :
    finishDl hh out = ⟨.cancelled, false, 0, out.events, []⟩ := by
  obtain ⟨r, d, e⟩ := out
  simp only at h
  subst h
  rfl

lemma finishDl_events (hh : Bool) (out : LoopOut) : (finishDl hh out).events = out.events := by
  obtain ⟨r, d, e⟩ := out
  cases r <;> rfl

lemma classifyDl_cancelled (d : DlState) (h : d.result = .cancelled) :
    classifyDl d = ⟨"Failed", "Download cancelled", d.fileExists, d.history⟩ := by
  obtain ⟨r, fe, fb, ev, hi⟩ := d
  simp only at h
  subst h
  rfl

lemma chunkTick_downloaded (t : Nat) (e : ℚ) (d : Nat) :
    ∀ x ∈ chunkTick t e d, x.downloaded = d := by
  intro x hx
  unfold chunkTick at hx
  split at hx
  · simp at hx; subst hx; rfl
  · simp at hx

lemma dlLoop_events_strict (total : Nat) (elapsed : Nat → ℚ) (cancel : Nat → Bool) :
    ∀ (evs : List ChunkEvent) (i d : Nat),
      List.Pairwise (· < ·)
          ((dlLoop total elapsed cancel evs i d).events.map ProgressEvent.downloaded) ∧
        ∀ x ∈ (dlLoop total elapsed cancel evs i d).events, d < x.downloaded := by
  intro evs
  induction evs with
  | nil => intro i d; simp [dlLoop]
  | cons ev rest ih =>
    intro i d
    cases ev with
    | netErr => simp [dlLoop]
    | otherErr => simp [dlLoop]
    | chunk sz =>
      cases hc : cancel i with
      | true => simp [dlLoop, hc]
      | false =>
        by_cases hsz : sz = 0
        · subst hsz
          simpa [dlLoop, hc] using ih (i + 1) d
        · obtain ⟨p1, p2⟩ := ih (i + 1) (d + sz)
          have hev : (dlLoop total elapsed cancel (ChunkEvent.chunk sz :: rest) i d).events =
              chunkTick total (elapsed i) (d + sz) ++
                (dlLoop total elapsed cancel rest (i + 1) (d + sz)).events := by
            simp [dlLoop, hc, hsz]
          rw [hev]
          constructor
          · rw [List.map_append, List.pairwise_append]
            refine ⟨?_, p1, ?_⟩
            · unfold chunkTick
              split <;> simp
            · intro a ha b hb
              simp only [List.mem_map] at ha hb
              obtain ⟨xa, hxa, rfl⟩ := ha
              obtain ⟨xb, hxb, rfl⟩ := hb
              rw [chunkTick_downloaded _ _ _ xa hxa]
              exact p2 xb hxb
          · intro x hx
            rw [List.mem_append] at hx
            cases hx with
            | inl h => rw [chunkTick_downloaded _ _ _ x h]; omega
            | inr h => have := p2 x h; omega

/-! ## C3 — cancellation of a claimed item -/

/-- C3 counterexample: a cancelled stream (flag observed at the second
chunk boundary) terminates with status `'Failed'` — not the distinct
`Cancelled` terminal status the claim requires. -/
theorem c3_counterexample :
    (processDownload true ⟨some "u", none, some (0, [.chunk 5, .chunk 5]),
        fun _ => 1, fun j => decide (1 ≤ j)⟩).status = "Failed" ∧
      (processDownload true ⟨some "u", none, some (0, [.chunk 5, .chunk 5]),
        fun _ => 1, fun j => decide (1 ≤ j)⟩).error = "Download cancelled" ∧
      (processDownload true ⟨some "u", none, some (0, [.chunk 5, .chunk 5]),
        fun _ => 1, fun j => decide (1 ≤ j)⟩).status ≠ "Cancelled" :=
  ⟨by decide, by decide, by decide⟩

/-- C3 (amended): when the `cancelled` flag is observed at chunk boundary
`k` of a streaming download, the loop raises there — the whole run is
determined by the first `k + 1` chunks (no further chunks are read), the
partial file is deleted (`fileExists = false`, `fileBytes = 0`), and the
item's terminal status is `'Failed'` with error `"Download cancelled"`
(the source has no distinct `Cancelled` status). -/
theorem c3_cancel_behaviour (sizes : List Nat) (k total : Nat) (elapsed : Nat → ℚ)
    (h : k < sizes.length) :
    (downloadFile (some (total, sizes.map ChunkEvent.chunk)) elapsed
        (fun j => decide (k ≤ j)) true).result = .cancelled ∧
      (downloadFile (some (total, sizes.map ChunkEvent.chunk)) elapsed
        (fun j => decide (k ≤ j)) true).fileExists = false ∧
      (downloadFile (some (total, sizes.map ChunkEvent.chunk)) elapsed
        (fun j => decide (k ≤ j)) true).fileBytes = 0 ∧
      downloadFile (some (total, sizes.map ChunkEvent.chunk)) elapsed
          (fun j => decide (k ≤ j)) true =
        downloadFile (some (total, (sizes.take (k + 1)).map ChunkEvent.chunk)) elapsed
          (fun j => decide (k ≤ j)) true ∧
      (processDownload true ⟨some "u", none, some (total, sizes.map ChunkEvent.chunk),
          elapsed, fun j => decide (k ≤ j)⟩).status = "Failed" ∧
      (processDownload true ⟨some "u", none, some (total, sizes.map ChunkEvent.chunk),
          elapsed, fun j => decide (k ≤ j)⟩).error = "Download cancelled" := by
  obtain ⟨L1, L2, L3⟩ := dlLoop_cancel_run total elapsed k sizes k 0 0 (by omega) h
  have e1 : downloadFile (some (total, sizes.map ChunkEvent.chunk)) elapsed
      (fun j => decide (k ≤ j)) true =
        finishDl true (dlLoop total elapsed (fun j => decide (k ≤ j))
          (sizes.map ChunkEvent.chunk) 0 0) := rfl
  have e2 : downloadFile (some (total, (sizes.take (k + 1)).map ChunkEvent.chunk)) elapsed
      (fun j => decide (k ≤ j)) true =
        finishDl true (dlLoop total elapsed (fun j => decide (k ≤ j))
          ((sizes.take (k + 1)).map ChunkEvent.chunk) 0 0) := rfl
  have e3 : processDownload true ⟨some "u", none, some (total, sizes.map ChunkEvent.chunk),
      elapsed, fun j => decide (k ≤ j)⟩ =
        classifyDl (downloadFile (some (total, sizes.map ChunkEvent.chunk)) elapsed
          (fun j => decide (k ≤ j)) true) := rfl
  have hfin := finishDl_cancelled true _ L2
  refine ⟨?_, ?_, ?_, ?_, ?_, ?_⟩
  · rw [e1, hfin]
  · rw [e1, hfin]
  · rw [e1, hfin]
  · rw [e1, e2, L1]
  · rw [e3, e1, hfin]
    rw [classifyDl_cancelled _ rfl]
  · rw [e3, e1, hfin]
    rw [classifyDl_cancelled _ rfl]

/-- Witness for C3: two 1-byte chunks with the flag observed at boundary 1. -/
theorem c3_cancel_behaviour_witness :
    1 < ([1, 1] : List Nat).length ∧
      ((downloadFile (some (0, ([1, 1] : List Nat).map ChunkEvent.chunk)) (fun _ => 1)
          (fun j => decide (1 ≤ j)) true).result = .cancelled ∧
        (downloadFile (some (0, ([1, 1] : List Nat).map ChunkEvent.chunk)) (fun _ => 1)
          (fun j => decide (1 ≤ j)) true).fileExists = false ∧
        (downloadFile (some (0, ([1, 1] : List Nat).map ChunkEvent.chunk)) (fun _ => 1)
          (fun j => decide (1 ≤ j)) true).fileBytes = 0 ∧
        downloadFile (some (0, ([1, 1] : List Nat).map ChunkEvent.chunk)) (fun _ => 1)
            (fun j => decide (1 ≤ j)) true =
          downloadFile (some (0, (([1, 1] : List Nat).take (1 + 1)).map ChunkEvent.chunk))
            (fun _ => 1) (fun j => decide (1 ≤ j)) true ∧
        (processDownload true ⟨some "u", none, some (0, ([1, 1] : List Nat).map ChunkEvent.chunk),
            fun _ => 1, fun j => decide (1 ≤ j)⟩).status = "Failed" ∧
        (processDownload true ⟨some "u", none, some (0, ([1, 1] : List Nat).map ChunkEvent.chunk),
            fun _ => 1, fun j => decide (1 ≤ j)⟩).error = "Download cancelled") :=
  ⟨by decide, c3_cancel_behaviour [1, 1] 1 0 (fun _ => 1) (by decide)⟩

/-! ## C5 — progress events when the total size is unknown -/

lemma chunkTick_zero_total (e : ℚ) (d : Nat) (hd : 1 ≤ d) :
    ∀ x ∈ chunkTick 0 e d, x.percent = 0 ∧ x.eta < 0 := by
  intro x hx
  unfold chunkTick at hx
  split at hx
  · next hcond =>
    simp only [List.mem_singleton] at hx
    subst hx
    constructor
    · simp
    · have hd0 : (0 : ℚ) < (d : ℚ) := by exact_mod_cast Nat.lt_of_lt_of_le Nat.zero_lt_one hd
      have hsp : (0 : ℚ) < (d : ℚ) / e := div_pos hd0 hcond.2
      simp only [hsp, if_pos]
      apply div_neg_of_neg_of_pos _ hsp
      push_cast
      linarith
  · simp at hx

lemma dlLoop_zero_total_events (elapsed : Nat → ℚ) (cancel : Nat → Bool) :
    ∀ (evs : List ChunkEvent) (i d : Nat),
      ∀ x ∈ (dlLoop 0 elapsed cancel evs i d).events,
        x.percent = 0 ∧ x.eta < 0 ∧ 1 ≤ x.downloaded := by
  intro evs
  induction evs with
  | nil => intro i d; simp [dlLoop]
  | cons ev rest ih =>
    intro i d
    cases ev with
    | netErr => simp [dlLoop]
    | otherErr => simp [dlLoop]
    | chunk sz =>
      cases hc : cancel i with
      | true => simp [dlLoop, hc]
      | false =>
        by_cases hsz : sz = 0
        · subst hsz
          simpa [dlLoop, hc] using ih (i + 1) d
        · have hev : (dlLoop 0 elapsed cancel (ChunkEvent.chunk sz :: rest) i d).events =
              chunkTick 0 (elapsed i) (d + sz) ++
                (dlLoop 0 elapsed cancel rest (i + 1) (d + sz)).events := by
            simp [dlLoop, hc, hsz]
          rw [hev]
          intro x hx
          rw [List.mem_append] at hx
          cases hx with
          | inl h =>
            have hd : 1 ≤ d + sz := by omega
            obtain ⟨hp, he⟩ := chunkTick_zero_total (elapsed i) (d + sz) hd x h
            have hdl := chunkTick_downloaded 0 (elapsed i) (d + sz) x h
            exact ⟨hp, he, by omega⟩
          | inr h => exact ih (i + 1) (d + sz) x h

/-- C5 counterexample: a download with no `content-length` (total 0) that
streams ten 8192-byte chunks emits a progress event whose `progress` field
is present and equal to `0` and whose `eta` field is present and negative
(`-1`) — the claim requires both fields to be omitted for unknown totals. -/
theorem c5_counterexample :
    (downloadFile (some (0, List.replicate 10 (ChunkEvent.chunk 8192))) (fun _ => 1)
        (fun _ => false) true).events = [⟨81920, 0, 0, -1⟩] := by
  simp [downloadFile, finishDl, dlLoop, chunkTick, List.replicate]

/-- C5 (amended): when the total size is unknown (0), every chunk-loop
progress event still carries a `progress` field reported as `0` and an
`eta` field reported as a negative value (rather than omitting them),
while `downloaded_bytes` is present, at least 1, and strictly increases
across events. -/
theorem c5_unknown_total (sizes : List Nat) (elapsed : Nat → ℚ) :
    ((downloadFile (some (0, sizes.map ChunkEvent.chunk)) elapsed (fun _ => false) true).events.all
        (fun e => decide (e.percent = 0) && decide (e.eta < 0) && decide (1 ≤ e.downloaded))) = true ∧
      List.Pairwise (· < ·)
        ((downloadFile (some (0, sizes.map ChunkEvent.chunk)) elapsed
            (fun _ => false) true).events.map ProgressEvent.downloaded) := by
  have e1 : downloadFile (some (0, sizes.map ChunkEvent.chunk)) elapsed (fun _ => false) true =
      finishDl true (dlLoop 0 elapsed (fun _ => false) (sizes.map ChunkEvent.chunk) 0 0) := rfl
  constructor
  · rw [List.all_eq_true]
    intro e he
    rw [e1, finishDl_events] at he
    obtain ⟨h1, h2, h3⟩ := dlLoop_zero_total_events elapsed (fun _ => false)
      (sizes.map ChunkEvent.chunk) 0 0 e he
    simp [h1, h2, h3]
  · rw [e1, finishDl_events]
    exact (dlLoop_events_strict 0 elapsed (fun _ => false) (sizes.map ChunkEvent.chunk) 0 0).1

/-! ## C7 — per-item progress monotonicity -/

/-- C7: for any response, timing and cancellation behaviour, the
`downloaded_bytes` values carried by the progress events of a single item
are strictly increasing, hence monotonically non-decreasing. -/
theorem c7_progress_monotone (resp : Option (Nat × List ChunkEvent)) (elapsed : Nat → ℚ)
    (cancel : Nat → Bool) (hasHist : Bool) :
    List.Pairwise (· ≤ ·)
      ((downloadFile resp elapsed cancel hasHist).events.map ProgressEvent.downloaded) := by
  cases resp with
  | none => simp [downloadFile]
  | some p =>
    obtain ⟨total, evs⟩ := p
    have e1 : downloadFile (some (total, evs)) elapsed cancel hasHist =
        finishDl hasHist (dlLoop total elapsed cancel evs 0 0) := rfl
    rw [e1, finishDl_events]
    exact ((dlLoop_events_strict total elapsed cancel evs 0 0).1).imp le_of_lt

/-! ## C4 — resolution failure and the history sink -/

/-- C4 counterexample: in the 3-item scenario the history sink receives
exactly two records, both `'Completed'`, and zero `'Failed'` records —
the claim expects one `Failed` record for the resolution failure, but the
code only ever writes history records on the completion path. -/
theorem c4_counterexample :
    (runItems true c4Items).1 = ["Completed", "Failed", "Completed"] ∧
      (runItems true c4Items).2 = ["Completed", "Completed"] ∧
      (runItems true c4Items).2.count "Failed" = 0 :=
  ⟨by decide, by decide, by decide⟩

/-- C4 (amended): an item whose resolution fails reaches terminal status
`'Failed'` with error `"Failed to get download link"`, leaves no file, and
writes no history record at all. -/
theorem c4_resolution_failure (hasHist : Bool) (it : ItemSpec)
    (h1 : it.presetUrl = none) (h2 : it.resolved = none) :
    processDownload hasHist it =
      ⟨"Failed", "Failed to get download link", false, []⟩ := by
  simp [processDownload, effectiveUrl, h1, h2]

/-- Witness for C4: the amended theorem applied to item B of the scenario. -/
theorem c4_resolution_failure_witness :
    (⟨none, none, none, fun _ => 1, fun _ => false⟩ : ItemSpec).presetUrl = none ∧
      (⟨none, none, none, fun _ => 1, fun _ => false⟩ : ItemSpec).resolved = none ∧
      processDownload true ⟨none, none, none, fun _ => 1, fun _ => false⟩ =
        ⟨"Failed", "Failed to get download link", false, []⟩ :=
  ⟨rfl, rfl, c4_resolution_failure true _ rfl rfl⟩

/-! ## C6 — filename collision policy -/

lemma uniqueLoop_finds (fs : List String) (base ext : String) :
    ∀ (fuel counter n : Nat), counter ≤ n → n - counter < fuel →
      fs.contains (base ++ " (" ++ toString n ++ ")" ++ ext) = false →
      (∀ m, counter ≤ m → m < n →
        fs.contains (base ++ " (" ++ toString m ++ ")" ++ ext) = true) →
      uniqueLoop fs base ext fuel counter =
        some (base ++ " (" ++ toString n ++ ")" ++ ext) := by
  intro fuel
  induction fuel with
  | zero => intro counter n h1 h2 h3 h4; omega
  | succ f ih =>
    intro counter n h1 h2 h3 h4
    by_cases hcn : counter = n
    · subst hcn
      simp only [uniqueLoop]
      rw [h3]
      simp
    · have hlt : counter < n := by omega
      have hmem := h4 counter le_rfl hlt
      simp only [uniqueLoop]
      rw [hmem, if_pos rfl]
      exact ih (counter + 1) n (by omega) (by omega) h3
        (fun m hm1 hm2 => h4 m (by omega) hm2)

/-- C6: when `filepath` already exists, `_get_unique_filepath` returns the
candidate `f"{base} ({n}){ext}"` for the least `n ≥ 1` whose name is free
(given enough fuel for the modelled `while True` loop to reach it). -/
theorem c6_unique_filepath (fuel : Nat) (fs : List String) (filepath : String) (n : Nat)
    (hcol : fs.contains filepath = true) (h1 : 1 ≤ n)
    (hfree : fs.contains (mkNumbered filepath n) = false)
    (hmin : ∀ m, 1 ≤ m → m < n → fs.contains (mkNumbered filepath m) = true)
    (hfuel : n ≤ fuel) :
    get_unique_filepath fuel fs filepath = some (mkNumbered filepath n) := by
  unfold get_unique_filepath
  rw [if_pos hcol]
  exact uniqueLoop_finds fs (splitextStr filepath).1 (splitextStr filepath).2 fuel 1 n h1
    (by omega) hfree hmin

/-- Witness for C6: with `report.pdf` and `report (1).pdf` already present,
the chosen destination is `report (2).pdf` (and the first collision's
candidate is `report (1).pdf`, matching the spec's concrete scenario). -/
theorem c6_unique_filepath_witness :
    (["report.pdf", "report (1).pdf"] : List String).contains "report.pdf" = true ∧
      get_unique_filepath 3 ["report.pdf", "report (1).pdf"] "report.pdf" =
        some (mkNumbered "report.pdf" 2) ∧
      mkNumbered "report.pdf" 2 = "report (2).pdf" ∧
      mkNumbered "report.pdf" 1 = "report (1).pdf" :=
  ⟨by decide,
   c6_unique_filepath 3 ["report.pdf", "report (1).pdf"] "report.pdf" 2
     (by decide) (by decide) (by decide)
     (fun m hm1 hm2 => by
       have hm : m = 1 := by omega
       subst hm
       decide)
     (by decide),
   by decide, by decide⟩

/-! ## C9 — sanitize_filename versus is_valid_filename -/

lemma mem_rstripBy (p : Char → Bool) (l : List Char) (x : Char)
    (h : x ∈ rstripBy p l) : x ∈ l := by
  unfold rstripBy at h
  rw [List.mem_reverse] at h
  have := (List.dropWhile_suffix p).subset h
  rwa [List.mem_reverse] at this

lemma splitext_append (l : List Char) : (splitext l).1 ++ (splitext l).2 = l := by
  unfold splitext
  split
  · simp
  · split <;> (dsimp only; split <;> simp)

lemma mem_splitext_fst (l : List Char) (x : Char) (h : x ∈ (splitext l).1) : x ∈ l := by
  rw [← splitext_append l]
  exact List.mem_append_left _ h

lemma mem_splitext_snd (l : List Char) (x : Char) (h : x ∈ (splitext l).2) : x ∈ l := by
  rw [← splitext_append l]
  exact List.mem_append_right _ h

lemma sanitizeCore_ok (l : List Char) : ∀ c ∈ sanitizeCore l, okC c := by
  intro c hc
  have h1 := mem_rstripBy _ _ _ hc
  rw [List.mem_filter] at h1
  obtain ⟨h2, h3⟩ := h1
  rw [List.mem_map] at h2
  obtain ⟨a, _, rfl⟩ := h2
  refine ⟨?_, by simpa using h3⟩
  cases ha : forbiddenChars.contains a with
  | false =>
    have hna : a ∉ forbiddenChars := by simpa using ha
    simpa [ha] using hna
  | true =>
    simp only [ha, if_pos]
    decide

lemma sanitizeReserved_ok (l : List Char) (h : ∀ c ∈ l, okC c) :
    ∀ c ∈ sanitizeReserved l, okC c := by
  intro c hc
  unfold sanitizeReserved at hc
  split at hc
  · rw [List.mem_append, List.mem_append] at hc
    rcases hc with (hc | hc) | hc
    · exact h c (mem_splitext_fst l c hc)
    · have hall : ∀ x ∈ "_file".data, x ∉ forbiddenChars ∧ 32 ≤ x.toNat := by decide
      exact hall c hc
    · exact h c (mem_splitext_snd l c hc)
  · exact h c hc

lemma sanitizeTrunc_ok (l : List Char) (h : ∀ c ∈ l, okC c) :
    ∀ c ∈ sanitizeTrunc l, okC c := by
  intro c hc
  unfold sanitizeTrunc at hc
  split at hc
  · rw [List.mem_append] at hc
    rcases hc with hc | hc
    · unfold pySlice at hc
      split at hc <;>
        exact h c (mem_splitext_fst l c (List.mem_of_mem_take hc))
    · exact h c (mem_splitext_snd l c hc)
  · exact h c hc

/-- C9 (amended): for every input, `sanitize_filename` returns a name that
is non-empty (not all whitespace), contains no forbidden characters and no
control characters.  The stronger claim — that the result always passes
`is_valid_filename` — is false: stripping can reveal a reserved stem, and
truncation can reintroduce a trailing space or leave an over-long
extension (see the counterexample). -/
theorem c9_sanitize_partial (s : String) :
    (stripWs (sanitize_filename s).data).isEmpty = false ∧
      ((sanitize_filename s).data.all
        (fun c => !(forbiddenChars.contains c) && decide (32 ≤ c.toNat))) = true := by
  unfold sanitize_filename
  by_cases h0 : s.data.isEmpty
  · rw [if_pos h0]
    exact ⟨by decide, by decide⟩
  · rw [if_neg h0]
    by_cases h5 : (stripWs (sanitizeTrunc (sanitizeReserved (sanitizeCore s.data)))).isEmpty
    · rw [if_pos h5]
      exact ⟨by decide, by decide⟩
    · rw [if_neg h5]
      constructor
      · exact Bool.not_eq_true _ |>.mp h5 |> fun h => by
          simpa using h
      · rw [List.all_eq_true]
        intro c hc
        have hok : okC c :=
          sanitizeTrunc_ok _ (sanitizeReserved_ok _ (sanitizeCore_ok s.data)) c hc
        simp [hok.1, hok.2]

/-- C9 counterexample: `sanitize_filename` leaves `" CON.txt"` unchanged
(no forbidden or control characters, no trailing dot or space, and the
name part `" CON"` with its leading space is not in the reserved list),
yet `is_valid_filename` strips the input first and then rejects the
reserved stem `CON`. -/
theorem c9_counterexample :
    sanitize_filename " CON.txt" = " CON.txt" ∧
      is_valid_filename (sanitize_filename " CON.txt") = false :=
  ⟨by decide, by decide⟩

/-! ## C10 — normalize_terabox_url idempotence -/

lemma takeWhile_upto (p : Char → Bool) (a b : List Char) (c : Char)
    (ha : ∀ x ∈ a, p x = true) (hc : p c = false) :
    (a ++ c :: b).takeWhile p = a ∧ (a ++ c :: b).dropWhile p = c :: b := by
  constructor
  · rw [takeWhile_append_all p a (c :: b) ha]
    simp [List.takeWhile_cons, hc]
  · rw [dropWhile_append_all p a (c :: b) ha]
    simp [List.dropWhile_cons, hc]

lemma parseScheme_https (rest : List Char) :
    parseScheme ("https:".data ++ rest) = ("https".data, rest) := by
  have hby : breakAt ':' ("https:".data ++ rest) = ("https".data, some rest) := by
    rw [show "https:".data ++ rest = "https".data ++ (':' :: rest) from rfl,
      breakAt_append ':' "https".data (':' :: rest) (by decide), breakAt_cons_self]
    simp
  unfold parseScheme
  rw [hby]
  dsimp only
  rw [if_pos (by decide)]
  rw [show lowerL "https".data = "https".data from by decide]

lemma splitParams_sprefix (q : List Char) :
    ∃ X, (splitParams ('/' :: 's' :: '/' :: q)).1 = '/' :: 's' :: '/' :: X := by
  unfold splitParams
  rw [if_pos (by simp : ('/' :: 's' :: '/' :: q).contains '/' = true)]
  have hrev : ('/' :: 's' :: '/' :: q).reverse = q.reverse ++ '/' :: ['s', '/'] := by
    simp
  have hlen : ((('/' :: 's' :: '/' :: q).reverse.takeWhile
      (fun c => !(c = '/'))).reverse).length ≤ q.length := by
    rw [List.length_reverse, hrev]
    calc ((q.reverse ++ '/' :: ['s', '/']).takeWhile (fun c => !(c = '/'))).length
        ≤ q.reverse.length := takeWhile_append_length _ _ _ '/' (by decide)
      _ = q.length := List.length_reverse _
  cases hb : breakAt ';' ((('/' :: 's' :: '/' :: q).reverse.takeWhile
      (fun c => !(c = '/'))).reverse) with
  | mk a ob =>
    cases ob with
    | none => exact ⟨q, rfl⟩
    | some b =>
      dsimp only
      have hk : ∃ k, ('/' :: 's' :: '/' :: q).length -
          ((('/' :: 's' :: '/' :: q).reverse.takeWhile (fun c => !(c = '/'))).reverse).length
            = k + 3 := ⟨q.length - ((('/' :: 's' :: '/' :: q).reverse.takeWhile
              (fun c => !(c = '/'))).reverse).length, by
                have h3 : ('/' :: 's' :: '/' :: q).length = q.length + 3 := by simp
                omega⟩
      obtain ⟨k, hk⟩ := hk
      rw [hk]
      refine ⟨q.take k ++ a, ?_⟩
      simp [List.take_succ_cons]

lemma parseNetloc_terabox (id : List Char) :
    parseNetloc ("//terabox.com/s/".data ++ id) = ("terabox.com".data, '/' :: 's' :: '/' :: id) := by
  rw [show "//terabox.com/s/".data ++ id =
    '/' :: '/' :: ("terabox.com".data ++ '/' :: ("s/".data ++ id)) from rfl]
  show (("terabox.com".data ++ '/' :: ("s/".data ++ id)).takeWhile notNetlocEnd,
    ("terabox.com".data ++ '/' :: ("s/".data ++ id)).dropWhile notNetlocEnd) = _
  obtain ⟨ht, hd⟩ := takeWhile_upto notNetlocEnd "terabox.com".data ("s/".data ++ id) '/'
    (by decide) (by decide)
  rw [ht, hd]
  rfl

lemma urlparse_slink_parts (id : List Char) :
    urlparseL ("https://terabox.com/s/".data ++ id) =
      ⟨"https".data, "terabox.com".data,
       (splitParams ('/' :: 's' :: '/' :: (breakAt '?' (breakAt '#' id).1).1)).1,
       (splitParams ('/' :: 's' :: '/' :: (breakAt '?' (breakAt '#' id).1).1)).2,
       (breakAt '?' (breakAt '#' id).1).2.getD [],
       (breakAt '#' id).2.getD []⟩ := by
  have h1 : parseScheme ("https://terabox.com/s/".data ++ id) =
      ("https".data, "//terabox.com/s/".data ++ id) := by
    rw [show "https://terabox.com/s/".data ++ id =
      "https:".data ++ ("//terabox.com/s/".data ++ id) from rfl, parseScheme_https]
  have h3 : breakAt '#' ('/' :: 's' :: '/' :: id) =
      ("/s/".data ++ (breakAt '#' id).1, (breakAt '#' id).2) :=
    breakAt_append '#' "/s/".data id (by decide)
  have h4 : breakAt '?' ("/s/".data ++ (breakAt '#' id).1) =
      ("/s/".data ++ (breakAt '?' (breakAt '#' id).1).1, (breakAt '?' (breakAt '#' id).1).2) :=
    breakAt_append '?' "/s/".data _ (by decide)
  simp only [urlparseL]
  rw [h1]
  dsimp only
  rw [parseNetloc_terabox]
  dsimp only
  rw [h3]
  dsimp only
  rw [h4]
  rfl

lemma urlparse_slink_shape (id : List Char) :
    (urlparseL ("https://terabox.com/s/".data ++ id)).scheme = "https".data ∧
      (urlparseL ("https://terabox.com/s/".data ++ id)).netloc = "terabox.com".data ∧
      ∃ X, (urlparseL ("https://terabox.com/s/".data ++ id)).path = '/' :: 's' :: '/' :: X := by
  rw [urlparse_slink_parts id]
  exact ⟨rfl, rfl, splitParams_sprefix _⟩
lemma splitParams_good (q : List Char) (h1 : ∀ c ∈ q, c ≠ '/') (h2 : ∀ c ∈ q, c ≠ ';') :
    splitParams ('/' :: 's' :: '/' :: q) = ('/' :: 's' :: '/' :: q, []) := by
  unfold splitParams
  rw [if_pos (by simp : ('/' :: 's' :: '/' :: q).contains '/' = true)]
  have hrev : ('/' :: 's' :: '/' :: q).reverse = q.reverse ++ '/' :: ['s', '/'] := by simp
  have hseg : ((('/' :: 's' :: '/' :: q).reverse.takeWhile (fun c => !(c = '/'))).reverse) = q := by
    rw [hrev, takeWhile_append_all _ _ _
      (fun c hc => by simp [h1 c (List.mem_reverse.mp hc)])]
    simp [List.takeWhile_cons]
  rw [hseg, breakAt_not_mem ';' q h2]

lemma urlparse_slink_good (id : List Char)
    (hg : ∀ c ∈ id, c ≠ '/' ∧ c ≠ '?' ∧ c ≠ '#' ∧ c ≠ ';') :
    urlparseL ("https://terabox.com/s/".data ++ id) =
      ⟨"https".data, "terabox.com".data, '/' :: 's' :: '/' :: id, [], [], []⟩ := by
  rw [urlparse_slink_parts id]
  rw [breakAt_not_mem '#' id (fun c hc => (hg c hc).2.2.1)]
  dsimp only
  rw [breakAt_not_mem '?' id (fun c hc => (hg c hc).2.1)]
  dsimp only
  rw [splitParams_good id (fun c hc => (hg c hc).1) (fun c hc => (hg c hc).2.2.2)]
  rfl

lemma splitOnS_cons_ne (c : Char) (rest : List Char) (hc : c ≠ '/') :
    splitOnS (c :: rest) = consSplit c (splitOnS rest) := by
  rw [splitOnS.eq_def]
  dsimp only
  rw [if_neg hc]

lemma splitOnS_no_slash (l : List Char) (h : ∀ c ∈ l, c ≠ '/') : splitOnS l = [l] := by
  induction l with
  | nil => rfl
  | cons c rest ih =>
    rw [splitOnS_cons_ne c rest (h c (by simp)), ih (fun x hx => h x (by simp [hx]))]
    rfl

lemma extract_slink_good (u : String) (id : List Char)
    (hg : ∀ c ∈ id, c ≠ '/' ∧ c ≠ '?' ∧ c ≠ '#' ∧ c ≠ ';')
    (hdata : u.data = "https://terabox.com/s/".data ++ id) :
    extract_terabox_id u = some (String.mk id) := by
  unfold extract_terabox_id
  rw [hdata, urlparse_slink_good id hg]
  dsimp only
  have hss : hasSubstr ['/', 's', '/'] ('/' :: 's' :: '/' :: id) = true :=
    hasSubstr_append_self "/s/".data id (by decide)
  rw [if_pos hss]
  rw [show splitOnS ('/' :: 's' :: '/' :: id) = [] :: splitOnS id from rfl,
    splitOnS_no_slash id (fun c hc => (hg c hc).1)]
  rw [show ([[], id] : List (List Char)).getLastD [] = id from rfl]
  rw [List.takeWhile_eq_self_iff.mpr (fun c hc => by simp [(hg c hc).1])]

lemma valid_slink (v : String) (id : List Char)
    (hdata : v.data = "https://terabox.com/s/".data ++ id) :
    is_valid_terabox_url v = true := by
  obtain ⟨hsch, hnet, X, hpath⟩ := urlparse_slink_shape id
  have hvu : is_valid_url v = true := by
    simp only [is_valid_url, urlparse]
    rw [hdata, hsch, hnet]
    decide
  have hlow : lowerL v.data = "https://terabox.com/s/".data ++ lowerL id := by
    rw [hdata]
    unfold lowerL
    rw [List.map_append]
    congr 1
  obtain ⟨hsch2, hnet2, Y, hpath2⟩ := urlparse_slink_shape (lowerL id)
  simp only [is_valid_terabox_url]
  rw [hvu, hlow, hnet2, hpath2]
  rw [show ('/' :: 's' :: '/' :: Y) = "/s/".data ++ Y from rfl,
    hasSubstr_append_self "/s/".data Y (by decide)]
  rw [show domainOkB "terabox.com".data = true from by decide]
  simp

/-- C10 (amended): whenever `normalize_terabox_url u` returns a URL `v`,
`v` is itself a valid Terabox URL; and `normalize_terabox_url v = v`
provided the share id extracted from `u` contains none of the URL
structure characters `/`, `?`, `#`, `;` (the claim as stated fails when it
does — see the counterexample). -/
theorem c10_normalize_idempotent (u v : String) (h : normalize_terabox_url u = some v) :
    is_valid_terabox_url v = true ∧
      ((∀ id, extract_terabox_id u = some id →
          ∀ c ∈ id.data, c ≠ '/' ∧ c ≠ '?' ∧ c ≠ '#' ∧ c ≠ ';') →
        normalize_terabox_url v = some v) := by
  unfold normalize_terabox_url at h
  by_cases hvu : is_valid_terabox_url u = true
  case neg =>
    rw [if_neg hvu] at h
    cases h
  rw [if_pos hvu] at h
  cases hex : extract_terabox_id u with
  | none =>
    rw [hex] at h
    dsimp only at h
    have hv : v = u := (Option.some.inj h).symm
    subst hv
    refine ⟨hvu, fun _ => ?_⟩
    unfold normalize_terabox_url
    rw [if_pos hvu, hex]
  | some id =>
    rw [hex] at h
    dsimp only at h
    by_cases hid : id.isEmpty = true
    · rw [if_pos hid] at h
      have hv : v = u := (Option.some.inj h).symm
      subst hv
      refine ⟨hvu, fun _ => ?_⟩
      unfold normalize_terabox_url
      rw [if_pos hvu, hex]
      dsimp only
      rw [if_pos hid]
    · rw [if_neg hid] at h
      have hv : v = "https://terabox.com/s/" ++ id := (Option.some.inj h).symm
      subst hv
      have hdata : ("https://terabox.com/s/" ++ id).data =
          "https://terabox.com/s/".data ++ id.data := String.data_append _ _
      have hval := valid_slink _ id.data hdata
      refine ⟨hval, fun hg => ?_⟩
      have hgid := hg id rfl
      have hext := extract_slink_good ("https://terabox.com/s/" ++ id) id.data hgid hdata
      unfold normalize_terabox_url
      rw [if_pos hval, hext]
      dsimp only
      rw [show String.mk id.data = id from rfl]
      rw [if_neg hid]

/-- Witness for C10: the canonical share URL `https://terabox.com/s/abc`
normalizes to itself and is valid. -/
theorem c10_normalize_idempotent_witness :
    normalize_terabox_url "https://terabox.com/s/abc" = some "https://terabox.com/s/abc" ∧
      is_valid_terabox_url "https://terabox.com/s/abc" = true := by
  have hnorm : normalize_terabox_url "https://terabox.com/s/abc" =
      some "https://terabox.com/s/abc" := by decide
  have hcond : ∀ id, extract_terabox_id "https://terabox.com/s/abc" = some id →
      ∀ c ∈ id.data, c ≠ '/' ∧ c ≠ '?' ∧ c ≠ '#' ∧ c ≠ ';' := by
    intro id hid
    have hx : extract_terabox_id "https://terabox.com/s/abc" = some "abc" := by decide
    rw [hx] at hid
    have : id = "abc" := (Option.some.inj hid).symm
    subst this
    decide
  exact ⟨(c10_normalize_idempotent _ _ hnorm).2 hcond, (c10_normalize_idempotent _ _ hnorm).1⟩

/-- C10 counterexample: `surl=a/b` yields `v = https://terabox.com/s/a/b`,
but normalizing `v` truncates the id at the `/` and returns a different
URL, so `normalize_terabox_url` is not idempotent as claimed. -/
theorem c10_counterexample :
    normalize_terabox_url "https://terabox.com/sharing/link?surl=a/b" =
        some "https://terabox.com/s/a/b" ∧
      normalize_terabox_url "https://terabox.com/s/a/b" = some "https://terabox.com/s/a" ∧
      ("https://terabox.com/s/a" : String) ≠ "https://terabox.com/s/a/b" :=
  ⟨by decide, by decide, by decide⟩

end Terabox
